import Mathlib

/-!
Verification of the paged B-tree key/value storage engine.

The definitions below are a shallow embedding of the Go source of the engine
(`pkg/engine/node.go`, `pkg/engine/freelist.go`, `pkg/engine/dal.go`,
`pkg/engine/transaction.go` and the collection file): byte strings are lists
of byte values, machine integers are naturals with an explicit modulus where
wrap-around can occur, the page file is an association list from page numbers
to nodes (the transaction's dirty-node map provides read-your-writes on top
of the disk, so a single unified store models `Transaction.getNode`), and Go
runtime panics (out-of-range slice indexing) are modelled as `none` or as a
dedicated error value.
-/

/-! ## Bytes and items -/

/-- Byte strings (`[]byte` in the source) as lists of byte values. -/
abbrev Bytes := List Nat

/-- `bytes.Compare` from the Go standard library: lexicographic comparison
returning -1, 0 or 1. -/
def bytesCompare : Bytes → Bytes → Int
  | [], [] => 0
  | [], _ :: _ => -1
  | _ :: _, [] => 1
  | a :: as, b :: bs => if a < b then -1 else if b < a then 1 else bytesCompare as bs

/-- `byteOffset` from `node.go`. -/
def byteOffset : Nat := 1

/-- `int16Offset` from `node.go`. -/
def int16Offset : Nat := 2

/-- `nodeHeaderSize` from `node.go`. -/
def nodeHeaderSize : Nat := 3

/-- `pageNumberSize` from `meta.go`. -/
def pageNumberSize : Nat := 8

/-- `metaPageNumber` from `meta.go`: page 0 holds the meta record. -/
def metaPageNumber : Nat := 0

/-- One key/value pair of a B-tree node (`item` in `node.go`). -/
structure Item where
  key : Bytes
  value : Bytes
deriving DecidableEq

/-- `item.size()`: the number of key plus value bytes. -/
def Item.size (i : Item) : Nat := i.key.length + i.value.length

/-- An in-memory B-tree node (`node` in `node.go`): child page numbers,
items, and the node's own page number. -/
structure FNode where
  childNodes : List Nat
  items : List Item
  pageNumber : Nat
deriving DecidableEq

/-- `node.isLeaf()`: a node is a leaf iff it has no children. -/
def FNode.isLeaf (n : FNode) : Bool := n.childNodes.isEmpty

/-- `node.size()`: header size plus, for every item, the item bytes plus one
page-pointer size. -/
def FNode.size (n : FNode) : Nat :=
  n.items.foldl (fun s it => s + it.size + pageNumberSize) nodeHeaderSize

/-- `node.addItem`: insert an item at `insertionIndex`, appending when the
index equals the current length. -/
def FNode.addItem (n : FNode) (newIt : Item) (insertionIndex : Nat) : FNode :=
  if n.items.length = insertionIndex then
    { n with items := n.items ++ [newIt] }
  else
    { n with items := n.items.take insertionIndex ++ newIt :: n.items.drop insertionIndex }

/-! ## Free list -/

/-- The modulus of Go's `uint64`. -/
def u64Mod : Nat := 2 ^ 64

/-- The free list (`freelist` in `freelist.go`): released page numbers and
the high-water mark. -/
structure Freelist where
  releasedPages : List Nat
  maxPage : Nat
deriving DecidableEq

/-- `newFreelist()`: starts at the meta page number with no released pages. -/
def newFreelist : Freelist := { releasedPages := [], maxPage := metaPageNumber }

/-- `freelist.getNextPage()`: reuse the last released page if any, else
increment `maxPage` (a `uint64`, hence the modulus) and return it. -/
def Freelist.getNextPage (f : Freelist) : Nat × Freelist :=
  if f.releasedPages.length > 0 then
    let index := f.releasedPages.length - 1
    let pageNumber := f.releasedPages.getD index 0
    (pageNumber, { f with releasedPages := f.releasedPages.take index })
  else
    let m := (f.maxPage + 1) % u64Mod
    (m, { f with maxPage := m })

/-- `freelist.releasePage(n)`: append `n` to the released pages. -/
def Freelist.releasePage (f : Freelist) (number : Nat) : Freelist :=
  { f with releasedPages := f.releasedPages ++ [number] }

/-! ## Fill-factor predicates and split-point computation (`dal.go`)

The source compares `float32(size)` against `minNodeFillPercent * float32(pageSize)`
with `minNodeFillPercent = 0.5` and against `maxNodeFillPercent * float32(pageSize)`
with `maxNodeFillPercent = 0.95`.  For the sizes that occur (both operands far
below 2^24) `float32` arithmetic with the factor 0.5 is exact, so the 0.5
comparisons are rendered as exact integer comparisons `2 * size ≷ pageSize`;
the 0.95 comparison is rendered as `20 * size > 19 * pageSize`. -/

/-- `DAL.isOverPopulated`: node size strictly above 0.95 of a page. -/
def isOverPopulated (pageSize : Nat) (n : FNode) : Bool :=
  20 * n.size > 19 * pageSize

/-- `DAL.isUnderPopulated`: node size strictly below half a page. -/
def isUnderPopulated (pageSize : Nat) (n : FNode) : Bool :=
  2 * n.size < pageSize

/-- The loop of `DAL.getSplitIndex`: walk the remaining items carrying the
loop index and the running size; `totalLen` is `len(givenNode.items)`. -/
def getSplitIndexGo (pageSize totalLen : Nat) : List Item → Nat → Nat → Int
  | [], _, _ => -1
  | it :: rest, index, size =>
    let size1 := size + it.size + pageNumberSize
    if 2 * size1 > pageSize ∧ index + 1 < totalLen then (index : Int) + 1
    else getSplitIndexGo pageSize totalLen rest (index + 1) size1

/-- `DAL.getSplitIndex`: running size starts at the header size; the first
index whose running size crosses half a page, while not the last item,
yields `index + 1`; otherwise `-1`. -/
def getSplitIndex (pageSize : Nat) (givenNode : FNode) : Int :=
  getSplitIndexGo pageSize givenNode.items.length givenNode.items 0 nodeHeaderSize

/-- Cost of one item in the node-size formula: its bytes plus a page pointer. -/
def itemCost (it : Item) : Nat := it.size + pageNumberSize

/-- The running size after the first `k` items: header plus the cost of the
first `k` items.  Used to state the split-point claim declaratively. -/
def runningSize (items : List Item) (k : Nat) : Nat :=
  nodeHeaderSize + ((items.take k).map itemCost).sum

/-- Index `i` qualifies as a split point: the running size through item `i`
exceeds half a page and `i` is not the last item. -/
def qualifiesB (pageSize : Nat) (items : List Item) (i : Nat) : Bool :=
  decide (2 * runningSize items (i + 1) > pageSize) && decide (i + 1 < items.length)

/-- Declarative reading of the split-point computation: `i + 1` for the first
qualifying index `i`, else `-1`. -/
def splitIndexSpec (pageSize : Nat) (n : FNode) : Int :=
  match (List.range n.items.length).find? (qualifiesB pageSize n.items) with
  | some i => (i : Int) + 1
  | none => -1

/-! ## Byte-level page codec (`node.serialize` / `node.deserialize`) -/

/-- Write one byte at index `i` of a page buffer. -/
def setByte (buf : List Nat) (i v : Nat) : List Nat := buf.set i v

/-- Write a run of bytes starting at index `i` (Go's `copy(buffer[i:], bs)`
for `bs` entirely inside the buffer). -/
def setBytes (buf : List Nat) (i : Nat) : List Nat → List Nat
  | [] => buf
  | b :: rest => setBytes (buf.set i b) (i + 1) rest

/-- `binary.LittleEndian.PutUint16`. -/
def putUint16LE (buf : List Nat) (i v : Nat) : List Nat :=
  setBytes buf i [v % 256, v / 256 % 256]

/-- `binary.LittleEndian.PutUint64`. -/
def putUint64LE (buf : List Nat) (i v : Nat) : List Nat :=
  setBytes buf i ((List.range 8).map (fun k => v / 256 ^ k % 256))

/-- `binary.LittleEndian.Uint16` (reads 0 beyond the buffer). -/
def getUint16LE (buf : List Nat) (i : Nat) : Nat :=
  buf.getD i 0 + 256 * buf.getD (i + 1) 0

/-- `binary.LittleEndian.Uint64` (reads 0 beyond the buffer). -/
def getUint64LE (buf : List Nat) (i : Nat) : Nat :=
  ((List.range 8).map (fun k => 256 ^ k * buf.getD (i + k) 0)).sum

/-- The mutable cursor state of `node.serialize`. -/
structure SerState where
  buf : List Nat
  leftPos : Nat
  rightPos : Nat
deriving DecidableEq

/-- The item loop of `node.serialize`, one iteration per item.  For an
internal node the next child pointer is written first.  The right-region
writes follow the source exactly: the value is copied, the value length
written, then the cursor moves down by ONE byte before the key is copied
and by one more before the key length is written (the source decrements
`rightPos` by `byteOffset`, not by the key length, before `copy`). -/
def serializeLoop (isLeaf : Bool) : List Item → List Nat → SerState → SerState
  | [], _, st => st
  | it :: rest, children, st =>
    let stc :=
      if isLeaf then (st, children)
      else
        match children with
        | [] => (st, ([] : List Nat))
        | c :: cs =>
          ({ st with
              buf := putUint64LE st.buf st.leftPos c,
              leftPos := st.leftPos + pageNumberSize }, cs)
    let st1 := stc.1
    let keyCount := it.key.length
    let valueCount := it.value.length
    let offset := st1.rightPos - keyCount - valueCount - int16Offset
    let st2 : SerState :=
      { st1 with
          buf := putUint16LE st1.buf st1.leftPos offset,
          leftPos := st1.leftPos + int16Offset }
    let r1 := st2.rightPos - valueCount
    let buf3 := setBytes st2.buf r1 it.value
    let r2 := r1 - byteOffset
    let buf4 := setByte buf3 r2 valueCount
    let r3 := r2 - byteOffset
    let buf5 := setBytes buf4 r3 it.key
    let r4 := r3 - byteOffset
    let buf6 := setByte buf5 r4 keyCount
    serializeLoop isLeaf rest stc.2 { buf := buf6, leftPos := st2.leftPos, rightPos := r4 }

/-- `node.serialize`: header byte, little-endian item count, the item loop,
and for an internal node the final child pointer. -/
def serializeNode (n : FNode) (buffer : List Nat) : List Nat :=
  let isLeaf := n.isLeaf
  let buf0 := setByte buffer 0 (if isLeaf then 1 else 0)
  let buf1 := putUint16LE buf0 1 n.items.length
  let st := serializeLoop isLeaf n.items n.childNodes
    { buf := buf1, leftPos := nodeHeaderSize, rightPos := buffer.length - 1 }
  if isLeaf then st.buf
  else putUint64LE st.buf st.leftPos (n.childNodes.getD (n.childNodes.length - 1) 0)

/-- The item loop of `node.deserialize`: per item, optionally a child
pointer, then the slot offset, then key length, key, value length and value
read from the right region (out-of-range reads yield byte 0 and truncated
slices, which the concrete inputs below never exercise). -/
def deserializeLoop (buf : List Nat) (isLeaf : Bool) :
    Nat → Nat → List Nat → List Item → List Nat × List Item × Nat
  | 0, leftPos, cs, its => (cs, its, leftPos)
  | count + 1, leftPos, cs, its =>
    let cl :=
      if isLeaf then (cs, leftPos)
      else (cs ++ [getUint64LE buf leftPos], leftPos + pageNumberSize)
    let offset := getUint16LE buf cl.2
    let lp2 := cl.2 + int16Offset
    let keyCount := buf.getD offset 0
    let off1 := offset + byteOffset
    let key := (buf.drop off1).take keyCount
    let off2 := off1 + keyCount
    let valueCount := buf.getD off2 0
    let off3 := off2 + byteOffset
    let value := (buf.drop off3).take valueCount
    deserializeLoop buf isLeaf count lp2 cl.1 (its ++ [{ key := key, value := value }])

/-- `node.deserialize`: the page is a leaf iff its first byte is nonzero
(the source tests `isLeaf == 0` for the internal case). -/
def deserializeNode (buffer : List Nat) : FNode :=
  let isLeaf := !(buffer.getD 0 0 == 0)
  let itemsCount := getUint16LE buffer 1
  let res := deserializeLoop buffer isLeaf itemsCount nodeHeaderSize [] []
  let cs := if isLeaf then res.1 else res.1 ++ [getUint64LE buffer res.2.2]
  { childNodes := cs, items := res.2.1, pageNumber := 0 }

/-- A fresh zeroed page buffer (`DAL.allocateEmptyPage`). -/
def emptyPage (pageSize : Nat) : List Nat := List.replicate pageSize 0

/-! ## Page store and node access

Pages are an association list from page numbers to nodes.  Reads inside a
write transaction see the dirty-node map first and the disk otherwise
(`Transaction.getNode`), so one unified store models both. -/

/-- The page store of a transaction: page number to node. -/
abbrev Store := List (Nat × FNode)

/-- `dal.getNode` / `Transaction.getNode` over the unified store. -/
def getNodeS (s : Store) (p : Nat) : Option FNode :=
  match s.find? (fun e => e.1 == p) with
  | some e => some e.2
  | none => none

/-- `Transaction.writeNode`: the dirty map entry keyed by the node's own
page number is inserted or replaced. -/
def writeNodeS (s : Store) (n : FNode) : Store :=
  (n.pageNumber, n) :: s.filter (fun e => !(e.1 == n.pageNumber))

/-- Errors of the engine as surfaced to collection operations.
`indexOutOfRange` models a Go runtime panic from slice indexing. -/
inductive EngErr where
  | ioError
  | writeInReadTx
  | indexOutOfRange
deriving DecidableEq

/-- The item scan at the head of `findKeyRecursively`: walk the items
left-to-right; an equal key stops with `found`; the first strictly greater
key stops with the insertion index; otherwise the index ends at the item
count. -/
def scanItems : List Item → Bytes → Nat → Bool × Nat
  | [], _, idx => (false, idx)
  | it :: rest, key, idx =>
    let res := bytesCompare it.key key
    if res = 0 then (true, idx)
    else if res = 1 then (false, idx)
    else scanItems rest key (idx + 1)

/-- `findKeyRecursively` over an abstract page fetch `g` with recursion
fuel: found keys return their index and node; on a leaf, `exact` search
returns -1 and insertion search returns the insertion index; otherwise the
search descends into the child at the index, appending the index to the
ancestors.  `none` models a failed page fetch, an out-of-range child index,
or fuel exhaustion (never hit on well-formed finite trees). -/
def findKeyRecursively (g : Nat → Option FNode) :
    Nat → FNode → Bytes → Bool → List Nat → Option (Int × Option FNode × List Nat)
  | 0, _, _, _, _ => none
  | fuel + 1, node, key, exact, anc =>
    let sc := scanItems node.items key 0
    if sc.1 then some ((sc.2 : Int), some node, anc)
    else if node.isLeaf then
      if exact then some (-1, none, anc)
      else some ((sc.2 : Int), some node, anc)
    else
      match node.childNodes.get? sc.2 with
      | none => none
      | some cp =>
        match g cp with
        | none => none
        | some child => findKeyRecursively g fuel child key exact (anc ++ [sc.2])

/-- `collection.Find`: fetch the root, search with `exact = true`, and
return the containing node's item (or no item when the index is -1).
The outer `Option` is the error channel of `Find`. -/
def collFindG (g : Nat → Option FNode) (root fuel : Nat) (key : Bytes) :
    Option (Option Item) :=
  match g root with
  | none => none
  | some n =>
    match findKeyRecursively g fuel n key true [0] with
    | none => none
    | some (index, containing, _) =>
      if index = -1 then some none
      else
        match containing with
        | none => none
        | some cn =>
          match cn.items.get? index.toNat with
          | none => none
          | some it => some (some it)

/-- A store of raw page buffers, as held by the backing file. -/
abbrev ByteStore := List (Nat × List Nat)

/-- `dal.getNode` against raw pages: read the page, deserialize it and
stamp the page number (`node.pageNumber = pageNumber`). -/
def getNodeB (bs : ByteStore) (p : Nat) : Option FNode :=
  match bs.find? (fun e => e.1 == p) with
  | some e => some { deserializeNode e.2 with pageNumber := p }
  | none => none

/-- The single-item round trip of the specification: starting from an empty
collection, `Put(k, v)` takes the `root == 0` branch and stages one fresh
leaf (its page allocated from a fresh free list); `Commit` serializes the
dirty node into a zeroed page of the backing file; `Find(k)` then reads the
page back through `dal.getNode` and searches it. -/
def putCommitFind (pageSize : Nat) (k v : Bytes) : Option (Option Item) :=
  let pr := Freelist.getNextPage newFreelist
  let nd : FNode := { childNodes := [], items := [{ key := k, value := v }], pageNumber := pr.1 }
  let bs : ByteStore := [(nd.pageNumber, serializeNode nd (emptyPage pageSize))]
  collFindG (getNodeB bs) nd.pageNumber 4 k

/-! ## Internal removal (`node.removeItemFromInternal`) -/

/-- The descent loop of `removeItemFromInternal`.  The source computes
`traversingIndex := len(n.childNodes) - 1` from the receiver `n` (the
internal node the item is removed from) on EVERY iteration, not from the
node currently being visited; `nChildLen` is that constant length. -/
def removeInternalLoop (g : Nat → Option FNode) (nChildLen : Nat) :
    Nat → FNode → List Nat → Option (FNode × List Nat)
  | 0, _, _ => none
  | fuel + 1, aNode, affected =>
    if aNode.isLeaf then some (aNode, affected)
    else
      let traversingIndex := nChildLen - 1
      match aNode.childNodes.get? traversingIndex with
      | none => none
      | some cp =>
        match g cp with
        | none => none
        | some next => removeInternalLoop g nChildLen fuel next (affected ++ [traversingIndex])

/-- `node.removeItemFromInternal`: descend from `children[index]`, then loop
to a leaf, pop the leaf's last item into slot `index`, and write both nodes.
Returns the updated store, the updated internal node and the affected path
indices. -/
def removeItemFromInternal (s : Store) (fuel : Nat) (n : FNode) (index : Nat) :
    Option (Store × FNode × List Nat) :=
  match n.childNodes.get? index with
  | none => none
  | some cp =>
    match getNodeS s cp with
    | none => none
    | some a0 =>
      match removeInternalLoop (getNodeS s) n.childNodes.length fuel a0 [index] with
      | none => none
      | some (aNode, affected) =>
        match aNode.items.getLast? with
        | none => none
        | some last =>
          let n1 := { n with items := n.items.set index last }
          let a1 := { aNode with items := aNode.items.dropLast }
          some (writeNodeS (writeNodeS s n1) a1, n1, affected)

/-- Modelled from the spec (section 4.5, internal removal): the in-order
predecessor is found by descending into `children[index]` and then
repeatedly into the LAST child of the node currently being visited until a
leaf is reached; its last item is the predecessor. -/
def predecessorLoopSpec (g : Nat → Option FNode) : Nat → FNode → Option Item
  | 0, _ => none
  | fuel + 1, a =>
    if a.isLeaf then a.items.getLast?
    else
      match a.childNodes.getLast? with
      | none => none
      | some cp =>
        match g cp with
        | none => none
        | some next => predecessorLoopSpec g fuel next

/-- Modelled from the spec: the in-order predecessor of the item at
`items[index]` of internal node `n`. -/
def inOrderPredecessorSpec (g : Nat → Option FNode) (fuel : Nat) (n : FNode)
    (index : Nat) : Option Item :=
  match n.childNodes.get? index with
  | none => none
  | some cp =>
    match g cp with
    | none => none
    | some a => predecessorLoopSpec g fuel a

/-! ## Split (`node.split`) and insert (`collection.Put`) -/

/-- `collection.getNodes`: follow the breadcrumb indexes from the root,
collecting the nodes on the path. -/
def getNodesLoop (g : Nat → Option FNode) : FNode → List Nat → List FNode → Option (List FNode)
  | _, [], acc => some acc
  | child, idx :: rest, acc =>
    match child.childNodes.get? idx with
    | none => none
    | some cp =>
      match g cp with
      | none => none
      | some next => getNodesLoop g next rest (acc ++ [next])

/-- `collection.getNodes` from the root: the first breadcrumb denotes the
root itself, the rest are child indexes. -/
def getNodesFrom (g : Nat → Option FNode) (root : Nat) (indexes : List Nat) :
    Option (List FNode) :=
  match g root with
  | none => none
  | some rootN => getNodesLoop g rootN (indexes.drop 1) [rootN]

/-- `node.split`: when `getSplitIndex` allows it, move the items above the
split point into a freshly allocated node, truncate the split child, lift
the middle item into the parent and link the new node as the following
child.  Returns the updated store, free list, parent and child. -/
def splitChild (ps : Nat) (s : Store) (fl : Freelist) (parent nodeToSplit : FNode)
    (nodeToSplitIndex : Nat) : Store × Freelist × FNode × FNode :=
  let splitIndex := getSplitIndex ps nodeToSplit
  if splitIndex = -1 then (s, fl, parent, nodeToSplit)
  else
    let si := splitIndex.toNat
    match nodeToSplit.items.get? si with
    | none => (s, fl, parent, nodeToSplit)
    | some middleItem =>
      let pr := fl.getNextPage
      let nc :=
        if nodeToSplit.isLeaf then
          (({ childNodes := [], items := nodeToSplit.items.drop (si + 1),
              pageNumber := pr.1 } : FNode), nodeToSplit)
        else
          (({ childNodes := nodeToSplit.childNodes.drop (si + 1),
              items := nodeToSplit.items.drop (si + 1), pageNumber := pr.1 } : FNode),
           { nodeToSplit with childNodes := nodeToSplit.childNodes.take (si + 1) })
      let s1 := writeNodeS s nc.1
      let child1 := { nc.2 with items := nc.2.items.take si }
      let parent1 := parent.addItem middleItem nodeToSplitIndex
      let parent2 :=
        if parent1.childNodes.length = nodeToSplitIndex + 1 then
          { parent1 with childNodes := parent1.childNodes ++ [nc.1.pageNumber] }
        else
          { parent1 with childNodes :=
              parent1.childNodes.take (nodeToSplitIndex + 1) ++
                nc.1.pageNumber :: parent1.childNodes.drop (nodeToSplitIndex + 1) }
      let s2 := writeNodeS (writeNodeS s1 parent2) child1
      (s2, pr.2, parent2, child1)

/-- The ancestor walk of `collection.Put`: for loop index `i` from
`len(ancestors) - 2` down to 0, split the child at `i + 1` into its parent
at `i` when it is over-populated (the counter argument is `i + 1`). -/
def putSplitSteps (ps : Nat) : Nat → Store → Freelist → List FNode → List Nat →
    Except EngErr (Store × Freelist × List FNode)
  | 0, s, fl, anc, _ => .ok (s, fl, anc)
  | i + 1, s, fl, anc, idxs =>
    match anc.get? i, anc.get? (i + 1), idxs.get? (i + 1) with
    | some p, some c, some nodeIndex =>
      if isOverPopulated ps c then
        let q := splitChild ps s fl p c nodeIndex
        putSplitSteps ps i q.1 q.2.1 ((anc.set i q.2.2.1).set (i + 1) q.2.2.2) idxs
      else putSplitSteps ps i s fl anc idxs
    | _, _, _ => .error .indexOutOfRange

/-- `collection.Put`: reject in a read transaction; create the root leaf
when the collection is empty; otherwise search with `exact = false`,
overwrite on an exact key match (the source indexes `items[insertionIndex]`
whenever `items` is non-nil, which panics when the insertion index equals
the item count — modelled as `indexOutOfRange`), insert otherwise, write
the leaf, and split over-populated ancestors bottom-up, growing a new root
when the old root is over-populated.  Returns store, free list and root. -/
def collPut (ps : Nat) (s : Store) (fl : Freelist) (root : Nat) (write : Bool)
    (fuel : Nat) (key value : Bytes) : Except EngErr (Store × Freelist × Nat) :=
  if write then
    let newIt : Item := { key := key, value := value }
    if root = 0 then
      let pr := fl.getNextPage
      let rootN : FNode := { childNodes := [], items := [newIt], pageNumber := pr.1 }
      .ok (writeNodeS s rootN, pr.2, rootN.pageNumber)
    else
      match getNodeS s root with
      | none => .error .ioError
      | some rootNode =>
        match findKeyRecursively (getNodeS s) fuel rootNode key false [0] with
        | none => .error .ioError
        | some (insertionIndex, nodeOpt, ancestorsIndexes) =>
          match nodeOpt with
          | none => .error .ioError
          | some nodeToInsertIn =>
            let upd :=
              if nodeToInsertIn.items.isEmpty then
                some (nodeToInsertIn.addItem newIt insertionIndex.toNat)
              else
                match nodeToInsertIn.items.get? insertionIndex.toNat with
                | none => none
                | some existing =>
                  if existing.key == key then
                    some { nodeToInsertIn with
                            items := nodeToInsertIn.items.set insertionIndex.toNat newIt }
                  else some (nodeToInsertIn.addItem newIt insertionIndex.toNat)
            match upd with
            | none => .error .indexOutOfRange
            | some written =>
              let s1 := writeNodeS s written
              match getNodesFrom (getNodeS s1) root ancestorsIndexes with
              | none => .error .ioError
              | some ancestors =>
                match putSplitSteps ps (ancestors.length - 1) s1 fl ancestors ancestorsIndexes with
                | .error e => .error e
                | .ok (s2, fl2, anc2) =>
                  match anc2.get? 0 with
                  | none => .error .indexOutOfRange
                  | some rootN =>
                    if isOverPopulated ps rootN then
                      let pr := fl2.getNextPage
                      let newRoot : FNode :=
                        { childNodes := [rootN.pageNumber], items := [], pageNumber := pr.1 }
                      let q := splitChild ps s2 pr.2 newRoot rootN 0
                      .ok (writeNodeS q.1 q.2.2.1, q.2.1, q.2.2.1.pageNumber)
                    else .ok (s2, fl2, root)
  else .error .writeInReadTx

/-! ## Rotations, merge and delete rebalancing (`node.go`) -/

/-- Fetch `n.childNodes[i]` and read the node behind it, the composite used
throughout the rebalancing code. -/
def getChild (s : Store) (n : FNode) (i : Nat) : Except EngErr FNode :=
  match n.childNodes.get? i with
  | none => .error .indexOutOfRange
  | some cp =>
    match getNodeS s cp with
    | none => .error .ioError
    | some m => .ok m

/-- `rotateRight`: move the left sibling's last item up into the parent
separator and pull the old separator down to the front of `bNode`; for an
internal left sibling its last child moves to the front of `bNode`.
`none` models the panics on an empty sibling or a bad separator index. -/
def rotateRightN (aNode pNode bNode : FNode) (bNodeIndex : Nat) :
    Option (FNode × FNode × FNode) :=
  match aNode.items.getLast? with
  | none => none
  | some aItem =>
    let a1 := { aNode with items := aNode.items.dropLast }
    let pIdx := if bNodeIndex = 0 then 0 else bNodeIndex - 1
    match pNode.items.get? pIdx with
    | none => none
    | some pItem =>
      let p1 := { pNode with items := pNode.items.set pIdx aItem }
      let b1 := { bNode with items := pItem :: bNode.items }
      if a1.isLeaf then some (a1, p1, b1)
      else
        match a1.childNodes.getLast? with
        | none => none
        | some cShift =>
          some ({ a1 with childNodes := a1.childNodes.dropLast }, p1,
                { b1 with childNodes := cShift :: b1.childNodes })

/-- `rotateLeft`: move the right sibling's first item up into the parent
separator and append the old separator to `aNode`; for an internal right
sibling its first child moves to the end of `aNode`. -/
def rotateLeftN (aNode pNode bNode : FNode) (bNodeIndex : Nat) :
    Option (FNode × FNode × FNode) :=
  match bNode.items with
  | [] => none
  | bItem :: bRest =>
    let b1 := { bNode with items := bRest }
    let pIdx := if bNodeIndex = pNode.items.length then pNode.items.length - 1 else bNodeIndex
    match pNode.items.get? pIdx with
    | none => none
    | some pItem =>
      let p1 := { pNode with items := pNode.items.set pIdx bItem }
      let a1 := { aNode with items := aNode.items ++ [pItem] }
      if b1.isLeaf then some (a1, p1, b1)
      else
        match b1.childNodes with
        | [] => none
        | cShift :: cRest =>
          some ({ a1 with childNodes := a1.childNodes ++ [cShift] }, p1,
                { b1 with childNodes := cRest })

/-- `node.merge`: fold `bNode` (at child position `bNodeIndex` of `n`) into
its left sibling together with the parent separator, unlink it from the
parent, write both and release `bNode`'s page.  The call sites always pass
`bNodeIndex ≥ 1`; index 0 would be a negative-index panic in the source. -/
def mergeNodes (s : Store) (fl : Freelist) (n bNode : FNode) (bNodeIndex : Nat) :
    Except EngErr (Store × Freelist × FNode) :=
  match bNodeIndex with
  | 0 => .error .indexOutOfRange
  | bIdx + 1 =>
    match getChild s n bIdx with
    | .error e => .error e
    | .ok aNode =>
      match n.items.get? bIdx with
      | none => .error .indexOutOfRange
      | some pNodeItem =>
        let n1 := { n with items := n.items.take bIdx ++ n.items.drop (bIdx + 1) }
        let a1 := { aNode with items := aNode.items ++ pNodeItem :: bNode.items }
        let n2 := { n1 with childNodes :=
                      n1.childNodes.take (bIdx + 1) ++ n1.childNodes.drop (bIdx + 2) }
        let a2 := if a1.isLeaf then a1
                  else { a1 with childNodes := a1.childNodes ++ bNode.childNodes }
        let s1 := writeNodeS (writeNodeS s a2) n2
        .ok (s1, fl.releasePage bNode.pageNumber, n2)

/-- `node.rebalanceRemove`: try a right rotation from the left sibling,
then a left rotation from the right sibling (a sibling can spare an item
when its `getSplitIndex` is not -1), else merge — with the right sibling
when the unbalanced node is leftmost, into the left sibling otherwise.
Returns the updated store, free list, parent and unbalanced node (the
in-memory unbalanced node is only changed by the rotations). -/
def rebalanceRemove (ps : Nat) (s : Store) (fl : Freelist) (n unbalancedNode : FNode)
    (unbalancedNodeIndex : Nat) : Except EngErr (Store × Freelist × FNode × FNode) :=
  let mergeStep : Except EngErr (Store × Freelist × FNode × FNode) :=
    if unbalancedNodeIndex = 0 then
      match getChild s n (unbalancedNodeIndex + 1) with
      | .error e => .error e
      | .ok rightNode =>
        match mergeNodes s fl n rightNode (unbalancedNodeIndex + 1) with
        | .error e => .error e
        | .ok (s1, fl1, n1) => .ok (s1, fl1, n1, unbalancedNode)
    else
      match mergeNodes s fl n unbalancedNode unbalancedNodeIndex with
      | .error e => .error e
      | .ok (s1, fl1, n1) => .ok (s1, fl1, n1, unbalancedNode)
  let rightStep : Except EngErr (Store × Freelist × FNode × FNode) :=
    if unbalancedNodeIndex ≠ n.childNodes.length - 1 then
      match getChild s n (unbalancedNodeIndex + 1) with
      | .error e => .error e
      | .ok rightNode =>
        if getSplitIndex ps rightNode ≠ -1 then
          match rotateLeftN unbalancedNode n rightNode unbalancedNodeIndex with
          | none => .error .indexOutOfRange
          | some (a1, p1, r1) =>
            .ok (writeNodeS (writeNodeS (writeNodeS s a1) p1) r1, fl, p1, a1)
        else mergeStep
    else mergeStep
  if unbalancedNodeIndex ≠ 0 then
    match getChild s n (unbalancedNodeIndex - 1) with
    | .error e => .error e
    | .ok leftNode =>
      if getSplitIndex ps leftNode ≠ -1 then
        match rotateRightN leftNode n unbalancedNode unbalancedNodeIndex with
        | none => .error .indexOutOfRange
        | some (l1, p1, b1) =>
          .ok (writeNodeS (writeNodeS (writeNodeS s l1) p1) b1, fl, p1, b1)
      else rightStep
  else rightStep

/-- The ancestor walk of `collection.remove`: for loop index `i` from
`len(ancestors) - 2` down to 0, rebalance the node at `i + 1` into its
parent at `i` when it is under-populated (the counter argument is `i + 1`). -/
def rebalanceSteps (ps : Nat) : Nat → Store → Freelist → List FNode → List Nat →
    Except EngErr (Store × Freelist × List FNode)
  | 0, s, fl, anc, _ => .ok (s, fl, anc)
  | i + 1, s, fl, anc, idxs =>
    match anc.get? i, anc.get? (i + 1) with
    | some p, some c =>
      if isUnderPopulated ps c then
        match idxs.get? (i + 1) with
        | none => .error .indexOutOfRange
        | some ci =>
          match rebalanceRemove ps s fl p c ci with
          | .error e => .error e
          | .ok (s1, fl1, p1, c1) =>
            rebalanceSteps ps i s1 fl1 ((anc.set i p1).set (i + 1) c1) idxs
      else rebalanceSteps ps i s fl anc idxs
    | _, _ => .error .indexOutOfRange

/-- `collection.remove`: reject in a read transaction; search with
`exact = true` and return successfully when the key is absent; remove from
a leaf by splicing, from an internal node via the predecessor descent;
then rebalance under-populated ancestors bottom-up and, when the root is an
empty internal node, promote its first path child.  Returns store, free
list and root page number. -/
def collRemove (ps : Nat) (s : Store) (fl : Freelist) (root : Nat) (write : Bool)
    (fuel : Nat) (key : Bytes) : Except EngErr (Store × Freelist × Nat) :=
  if write then
    match getNodeS s root with
    | none => .error .ioError
    | some rootNode =>
      match findKeyRecursively (getNodeS s) fuel rootNode key true [0] with
      | none => .error .ioError
      | some (removeItemIndex, nodeOpt, ancestorsIndexes) =>
        if removeItemIndex = -1 then .ok (s, fl, root)
        else
          match nodeOpt with
          | none => .error .ioError
          | some nodeToRemoveFrom =>
            let afterRemove :=
              if nodeToRemoveFrom.isLeaf then
                let n1 := { nodeToRemoveFrom with
                  items := nodeToRemoveFrom.items.take removeItemIndex.toNat ++
                           nodeToRemoveFrom.items.drop (removeItemIndex.toNat + 1) }
                some (writeNodeS s n1, ancestorsIndexes)
              else
                match removeItemFromInternal s fuel nodeToRemoveFrom removeItemIndex.toNat with
                | none => none
                | some (s1, _, affected) => some (s1, ancestorsIndexes ++ affected)
            match afterRemove with
            | none => .error .ioError
            | some (s1, ancIdx) =>
              match getNodesFrom (getNodeS s1) root ancIdx with
              | none => .error .ioError
              | some ancestors =>
                match rebalanceSteps ps (ancestors.length - 1) s1 fl ancestors ancIdx with
                | .error e => .error e
                | .ok (s2, fl2, anc2) =>
                  match anc2.get? 0 with
                  | none => .error .indexOutOfRange
                  | some rootN =>
                    if rootN.items.length = 0 ∧ rootN.childNodes.length > 0 then
                      match anc2.get? 1 with
                      | none => .error .indexOutOfRange
                      | some n1 => .ok (s2, fl2, n1.pageNumber)
                    else .ok (s2, fl2, root)
  else .error .writeInReadTx

/-! ## Transactions (`transaction.go`) -/

/-- The mutable state of a `Transaction`: dirty nodes, pages queued for
deletion, pages allocated during the transaction, and the write flag. -/
structure TxState where
  dirtyNodes : List (Nat × FNode)
  pagesToDelete : List Nat
  allocatedPageNumbers : List Nat
  write : Bool
deriving DecidableEq

/-- `Transaction.Rollback`: a read transaction only drops its lock; a write
transaction clears the dirty nodes and pending deletions, releases every
allocated page to the free list and clears the allocation list.  No page of
the backing store is written, so the store passes through unchanged. -/
def rollbackTx (t : TxState) (fl : Freelist) (disk : ByteStore) :
    TxState × Freelist × ByteStore :=
  if t.write then
    ({ dirtyNodes := [], pagesToDelete := [], allocatedPageNumbers := [], write := t.write },
     t.allocatedPageNumbers.foldl Freelist.releasePage fl,
     disk)
  else (t, fl, disk)

/-! ## Free-list allocation traces -/

/-- The states reachable from a fresh free list when only previously
returned page numbers are ever released; `returned` records every page
number `getNextPage` has handed out. -/
inductive FreelistReachable : Freelist → List Nat → Prop where
  | init : FreelistReachable newFreelist []
  | alloc {f : Freelist} {returned : List Nat} :
      FreelistReachable f returned →
      FreelistReachable (Freelist.getNextPage f).2 ((Freelist.getNextPage f).1 :: returned)
  | release {f : Freelist} {returned : List Nat} {p : Nat} :
      FreelistReachable f returned → p ∈ returned →
      FreelistReachable (f.releasePage p) returned

/-! ## Well-formed trees and their keys -/

/-- A page roots a well-formed tree of height below `fuel`: the page is
present, an internal node has one more child than items, and all children
are well-formed.  This is the shape `findKey` relies on to never fault. -/
def wfTreeB (s : Store) : Nat → Nat → Bool
  | 0, _ => false
  | fuel + 1, p =>
    match getNodeS s p with
    | none => false
    | some n =>
      if n.childNodes.isEmpty then true
      else
        (n.childNodes.length == n.items.length + 1) &&
          n.childNodes.all (fun cp => wfTreeB s fuel cp)

/-- All keys stored in the tree rooted at page `p` (up to height `fuel`). -/
def treeKeysB (s : Store) : Nat → Nat → List Bytes
  | 0, _ => []
  | fuel + 1, p =>
    match getNodeS s p with
    | none => []
    | some n =>
      n.items.map (fun it => it.key) ++
        (n.childNodes.map (fun cp => treeKeysB s fuel cp)).flatten

/-! ## Concrete instances used by the counterexample evaluations -/

/-- A leaf with a single two-byte key, the smallest shape on which the
serializer's right-region writes go wrong. -/
def c2Node : FNode := { childNodes := [], items := [{ key := [7, 8], value := [9] }], pageNumber := 3 }

/-- The serializer state after header and item count for a 32-byte page of
`c2Node`, as built by `serializeNode` before its item loop. -/
def c2Start : SerState :=
  { buf := putUint16LE (setByte (emptyPage 32) 0 1) 1 1, leftPos := nodeHeaderSize,
    rightPos := 31 }

/-- A one-byte item used to populate the removal counterexample tree. -/
def itm (k : Nat) : Item := { key := [k], value := [k] }

/-- Pages of the internal-removal counterexample: page 1 is an internal
node with three children (pages 3, 4, 5); pages 2-5 are leaves. -/
def c3Store : Store :=
  [ (1, { childNodes := [3, 4, 5], items := [itm 3, itm 6], pageNumber := 1 }),
    (2, { childNodes := [], items := [itm 12], pageNumber := 2 }),
    (3, { childNodes := [], items := [itm 1, itm 2], pageNumber := 3 }),
    (4, { childNodes := [], items := [itm 4, itm 5], pageNumber := 4 }),
    (5, { childNodes := [], items := [itm 7, itm 8], pageNumber := 5 }) ]

/-- The internal node (two children: pages 1 and 2) whose item 0 is removed
in the internal-removal counterexample. -/
def c3Internal : FNode := { childNodes := [1, 2], items := [itm 10], pageNumber := 10 }

/-- A collection holding the single key `"a"`, the smallest store on which
`Put` of a larger key indexes past the end of the leaf's items. -/
def c4Store : Store :=
  [(1, { childNodes := [], items := [{ key := [97], value := [49] }], pageNumber := 1 })]

/-! ## Theorems -/

/-- Claim C1: the single-item round trip fails on the code.  Putting the
two-byte key `"ab"` (bytes 97, 98) with value `"x"` (byte 120) into an
empty collection, committing, and searching for `"ab"` returns "no item"
instead of the value: the serializer misplaces the key-length byte for any
key longer than one byte, so the deserialized item has an empty key. -/
theorem put_commit_find_drops_two_byte_key :
    putCommitFind 64 [97, 98] [120] = some none := rfl

/-- Claim C2: the right-region layout the specification describes does not
hold.  For a leaf with the single item key `[7, 8]`, value `[9]` in a
32-byte page, the recorded slot offset is 26, but the right cursor after
the item is 27, the byte at the slot offset is 0 instead of the key length
2, and the byte where the claimed layout places the value length holds a
key byte (8): the source moves the cursor one byte (not the key length)
before copying the key. -/
theorem serialize_right_region_mismatch :
    (serializeLoop true c2Node.items [] c2Start).rightPos = 27 ∧
    getUint16LE (serializeNode c2Node (emptyPage 32)) 3 = 26 ∧
    (serializeNode c2Node (emptyPage 32)).getD 26 0 = 0 ∧
    (serializeNode c2Node (emptyPage 32)).getD 29 0 = 8 :=
  ⟨rfl, rfl, rfl, rfl⟩

/-- Claim C3: the internal-removal descent does not reach the in-order
predecessor.  In a tree whose root `c3Internal` has 2 children while the
left subtree's top (page 1) has 3 children, removing item 0 descends with
the constant index `len(n.childNodes) - 1 = 1` and pops the last item of
the MIDDLE leaf (`itm 5`), while the in-order predecessor — via the last
child of each visited node — is `itm 8`. -/
theorem removeInternal_descends_wrong_child :
    (removeItemFromInternal c3Store 8 c3Internal 0).map (fun r => r.2.1.items) =
        some [itm 5] ∧
    inOrderPredecessorSpec (getNodeS c3Store) 8 c3Internal 0 = some (itm 8) ∧
    itm 5 ≠ itm 8 :=
  ⟨rfl, rfl, by decide⟩

/-- Claim C4: `Put`'s overwrite check does index out of bounds.  On a
collection whose root leaf holds the single key `"a"` (byte 97), putting
the larger key `"b"` (byte 98) makes `findKey` return insertion index 1 =
`len(items)`, and the read of `items[insertionIndex]` faults. -/
theorem put_overwrite_check_out_of_bounds :
    collPut 4096 c4Store newFreelist 1 true 8 [98] [50] =
      Except.error EngErr.indexOutOfRange := rfl

/-- Claim C7: every mutating call against a read transaction fails with the
write-inside-read-transaction error, for every collection state and key. -/
theorem readTx_mutations_rejected (ps : Nat) (s : Store) (fl : Freelist)
    (root fuel : Nat) (key value : Bytes) :
    collPut ps s fl root false fuel key value = Except.error EngErr.writeInReadTx ∧
    collRemove ps s fl root false fuel key = Except.error EngErr.writeInReadTx :=
  ⟨rfl, rfl⟩

/-- Claim C5: `getNextPage` pops and returns the last released page when
there is one, and otherwise returns the incremented high-water mark
(a `uint64` pre-increment). -/
theorem getNextPage_pops_last_or_increments (f : Freelist) :
    (∀ h : f.releasedPages ≠ [],
      f.getNextPage = (f.releasedPages.getLast h,
        { f with releasedPages := f.releasedPages.dropLast })) ∧
    (f.releasedPages = [] →
      f.getNextPage = ((f.maxPage + 1) % u64Mod,
        { f with maxPage := (f.maxPage + 1) % u64Mod })) := by
  constructor
  · intro h
    have hl : 0 < f.releasedPages.length := List.length_pos.mpr h
    have h1 : f.releasedPages.getD (f.releasedPages.length - 1) 0 =
        f.releasedPages.getLast h := by
      rw [List.getLast_eq_getElem, List.getD_eq_getElem?_getD,
        List.getElem?_eq_getElem (by omega)]
      rfl
    simp only [Freelist.getNextPage, if_pos hl, h1, List.dropLast_eq_take]
  · intro h
    simp [Freelist.getNextPage, h]

/-- Witness for claim C5 at the concrete free list `{[4, 7], 9}`: the last
released page 7 is returned and removed. -/
theorem getNextPage_pops_last_or_increments_witness :
    Freelist.getNextPage { releasedPages := [4, 7], maxPage := 9 } =
      (7, { releasedPages := [4], maxPage := 9 }) :=
  (getNextPage_pops_last_or_increments
    { releasedPages := [4, 7], maxPage := 9 }).1 (by decide)

/-- Releasing a list of pages one by one appends the whole list to the
released pages. -/
theorem foldl_releasePage (fl : Freelist) (l : List Nat) :
    l.foldl Freelist.releasePage fl =
      { fl with releasedPages := fl.releasedPages ++ l } := by
  induction l generalizing fl with
  | nil => simp
  | cons a t ih =>
    simp only [List.foldl_cons, ih, Freelist.releasePage]
    simp

/-- Claim C8: rolling back a write transaction appends every allocated page
number to the free list's released pages, clears the dirty nodes, pending
deletions and allocation list, and leaves the backing store untouched. -/
theorem rollback_releases_allocations (t : TxState) (fl : Freelist) (disk : ByteStore)
    (hw : t.write = true) :
    rollbackTx t fl disk =
      ({ dirtyNodes := [], pagesToDelete := [], allocatedPageNumbers := [], write := true },
       { fl with releasedPages := fl.releasedPages ++ t.allocatedPageNumbers },
       disk) := by
  simp [rollbackTx, hw, foldl_releasePage]

/-- Witness for claim C8 at a concrete write transaction with allocations
5 and 6 over a free list already holding page 2. -/
theorem rollback_releases_allocations_witness :
    rollbackTx
        { dirtyNodes := [(3, { childNodes := [], items := [], pageNumber := 3 })],
          pagesToDelete := [4], allocatedPageNumbers := [5, 6], write := true }
        { releasedPages := [2], maxPage := 9 } [] =
      ({ dirtyNodes := [], pagesToDelete := [], allocatedPageNumbers := [], write := true },
       { releasedPages := [2, 5, 6], maxPage := 9 }, []) :=
  rollback_releases_allocations _ _ _ rfl

/-- One more item extends the running size by that item's cost. -/
theorem runningSize_succ (items : List Item) (idx : Nat) (it : Item)
    (h : items[idx]? = some it) :
    runningSize items (idx + 1) = runningSize items idx + itemCost it := by
  simp only [runningSize, List.take_succ, h, Option.toList_some, List.map_append,
    List.sum_append, List.map_cons, List.map_nil, List.sum_cons, List.sum_nil]
  omega

/-- The split-point loop computes the first qualifying index over the
remaining range, provided the accumulator equals the running size of the
consumed prefix. -/
theorem getSplitIndexGo_eq_find (ps : Nat) (items : List Item) :
    ∀ (rest : List Item) (idx : Nat),
      rest = items.drop idx → idx ≤ items.length →
      getSplitIndexGo ps items.length rest idx (runningSize items idx) =
        (match (List.range' idx (items.length - idx)).find? (qualifiesB ps items) with
         | some i => (i : Int) + 1
         | none => -1) := by
  intro rest
  induction rest with
  | nil =>
    intro idx hdrop hle
    have hlen : items.length ≤ idx := by
      have := congrArg List.length hdrop
      simp only [List.length_nil, List.length_drop] at this
      omega
    have hidx : items.length - idx = 0 := by omega
    rw [hidx]
    rfl
  | cons it rest2 ih =>
    intro idx hdrop hle
    have hlt : idx < items.length := by
      by_contra hcon
      push_neg at hcon
      rw [List.drop_eq_nil_of_le hcon] at hdrop
      exact List.cons_ne_nil it rest2 hdrop
    have hget : items[idx]? = some it := by
      have h0 := congrArg (fun l => l[0]?) hdrop
      simp only [List.getElem?_drop] at h0
      simpa using h0.symm
    have hrest2 : rest2 = items.drop (idx + 1) := by
      have ht := congrArg List.tail hdrop
      simpa [List.tail_drop] using ht
    have hrun : runningSize items (idx + 1) = runningSize items idx + itemCost it :=
      runningSize_succ items idx it hget
    have hrun1 : runningSize items idx + Item.size it + pageNumberSize =
        runningSize items (idx + 1) := by
      rw [hrun]; simp [itemCost]; omega
    have hiff : (2 * (runningSize items idx + Item.size it + pageNumberSize) > ps ∧
        idx + 1 < items.length) ↔ qualifiesB ps items idx = true := by
      rw [hrun1]
      simp [qualifiesB]
    have hsplit : items.length - idx = (items.length - (idx + 1)) + 1 := by omega
    simp only [getSplitIndexGo]
    rw [hsplit, List.range'_succ]
    by_cases hq : qualifiesB ps items idx = true
    · rw [if_pos (hiff.mpr hq), List.find?_cons_of_pos _ hq]
    · rw [if_neg (fun hc => hq (hiff.mp hc)),
        List.find?_cons_of_neg _ (by simp [hq]), hrun1]
      exact ih (idx + 1) hrest2 (by omega)

/-- Claim C6: `getSplitIndex` accumulates a running size starting at the
header size 3, adds `len(key) + len(value) + 8` per item, and returns
`i + 1` for the FIRST index `i` whose running size exceeds half the page
while `i` is not the last item, and `-1` when no index qualifies. -/
theorem getSplitIndex_matches_spec (ps : Nat) (n : FNode) :
    getSplitIndex ps n = splitIndexSpec ps n := by
  have h0 : runningSize n.items 0 = nodeHeaderSize := by simp [runningSize]
  have h := getSplitIndexGo_eq_find ps n.items n.items 0 rfl (Nat.zero_le _)
  rw [h0] at h
  rw [getSplitIndex, splitIndexSpec, List.range_eq_range']
  simpa using h

/-- `bytes.Compare` returns 0 exactly on equal byte strings. -/
theorem bytesCompare_eq_zero_iff (a : Bytes) : ∀ b, bytesCompare a b = 0 ↔ a = b := by
  induction a with
  | nil => intro b; cases b <;> simp [bytesCompare]
  | cons x xs ih =>
    intro b
    cases b with
    | nil => simp [bytesCompare]
    | cons y ys =>
      simp only [bytesCompare]
      rcases Nat.lt_trichotomy x y with h | h | h
      · rw [if_pos h]
        constructor
        · intro hc; omega
        · intro hc; injection hc with h1 h2; omega
      · subst h
        rw [if_neg (Nat.lt_irrefl x), if_neg (Nat.lt_irrefl x)]
        simp [ih ys]
      · rw [if_neg (by omega), if_pos h]
        constructor
        · intro hc; omega
        · intro hc; injection hc with h1 h2; omega

/-- When no item of the node carries the key, the item scan reports "not
found" with an index of at most the item count. -/
theorem scanItems_not_found (key : Bytes) :
    ∀ (items : List Item) (idx : Nat),
      (∀ it ∈ items, it.key ≠ key) →
      (scanItems items key idx).1 = false ∧
        (scanItems items key idx).2 ≤ idx + items.length := by
  intro items
  induction items with
  | nil => intro idx _; simp [scanItems]
  | cons it rest ih =>
    intro idx h
    have hne : it.key ≠ key := h it (List.mem_cons_self it rest)
    have hc0 : bytesCompare it.key key ≠ 0 := fun hc =>
      hne ((bytesCompare_eq_zero_iff _ _).mp hc)
    simp only [scanItems]
    rw [if_neg hc0]
    by_cases h1 : bytesCompare it.key key = 1
    · rw [if_pos h1]
      exact ⟨rfl, by simp only [List.length_cons]; omega⟩
    · rw [if_neg h1]
      have hrec := ih (idx + 1) (fun x hx => h x (List.mem_cons_of_mem it hx))
      refine ⟨hrec.1, ?_⟩
      have := hrec.2
      simp only [List.length_cons]
      omega

/-- A well-formed page is present in the store. -/
theorem wfTreeB_getNode {s : Store} {fuel p : Nat} (h : wfTreeB s fuel p = true) :
    ∃ n, getNodeS s p = some n := by
  cases fuel with
  | zero => simp [wfTreeB] at h
  | succ f =>
    simp only [wfTreeB] at h
    cases hg : getNodeS s p with
    | none => rw [hg] at h; simp at h
    | some n => exact ⟨n, rfl⟩

/-- On a well-formed tree that does not contain the key, the exact search
of `findKeyRecursively` terminates with index -1 and no node. -/
theorem findKeyRec_not_found (s : Store) (key : Bytes) :
    ∀ (fuel p : Nat) (n : FNode) (anc : List Nat),
      wfTreeB s fuel p = true → getNodeS s p = some n →
      key ∉ treeKeysB s fuel p →
      ∃ anc2, findKeyRecursively (getNodeS s) fuel n key true anc =
        some (-1, none, anc2) := by
  intro fuel
  induction fuel with
  | zero => intro p n anc hwf; simp [wfTreeB] at hwf
  | succ f ih =>
    intro p n anc hwf hget hmem
    simp only [wfTreeB, hget] at hwf
    simp only [treeKeysB, hget] at hmem
    have hitems : ∀ it ∈ n.items, it.key ≠ key := fun it hit heq =>
      hmem (List.mem_append.mpr (Or.inl (List.mem_map.mpr ⟨it, hit, heq⟩)))
    obtain ⟨hfalse, hbound⟩ := scanItems_not_found key n.items 0 hitems
    by_cases hleaf : n.childNodes.isEmpty
    · refine ⟨anc, ?_⟩
      simp only [findKeyRecursively, hfalse, Bool.false_eq_true, if_false,
        FNode.isLeaf, hleaf, if_true]
    · rw [if_neg hleaf] at hwf
      have hwf2 := hwf
      rw [Bool.and_eq_true] at hwf2
      have hlen : n.childNodes.length = n.items.length + 1 :=
        Nat.beq_eq_true_eq _ _ ▸ hwf2.1
      have hall := hwf2.2
      have hlt : (scanItems n.items key 0).2 < n.childNodes.length := by omega
      set j := (scanItems n.items key 0).2 with hj
      have hcp : n.childNodes.get? j = some (n.childNodes.get ⟨j, hlt⟩) :=
        List.get?_eq_get hlt
      set cp := n.childNodes.get ⟨j, hlt⟩ with hcpv
      have hcpmem : cp ∈ n.childNodes := List.get_mem _ _ _
      have hwfc : wfTreeB s f cp = true := by
        rw [List.all_eq_true] at hall
        exact hall cp hcpmem
      obtain ⟨child, hchild⟩ := wfTreeB_getNode hwfc
      have hmemc : key ∉ treeKeysB s f cp := fun hk =>
        hmem (List.mem_append.mpr (Or.inr
          (List.mem_flatten.mpr ⟨treeKeysB s f cp, List.mem_map_of_mem _ hcpmem, hk⟩)))
      obtain ⟨anc2, hrec⟩ := ih cp child (anc ++ [j]) hwfc hchild hmemc
      refine ⟨anc2, ?_⟩
      simp only [findKeyRecursively, hfalse, Bool.false_eq_true, if_false,
        FNode.isLeaf, hleaf, ← hj, hcp, hchild]
      exact hrec

/-- Claim C9: removing a key that is absent from a well-formed collection
succeeds and leaves everything unchanged: the store, the free list and the
root page are returned exactly as they were. -/
theorem remove_absent_key_noop (ps : Nat) (s : Store) (fl : Freelist) (root fuel : Nat)
    (key : Bytes) (hwf : wfTreeB s fuel root = true)
    (habs : key ∉ treeKeysB s fuel root) :
    collRemove ps s fl root true fuel key = Except.ok (s, fl, root) := by
  obtain ⟨rootNode, hget⟩ := wfTreeB_getNode hwf
  obtain ⟨anc2, hfind⟩ := findKeyRec_not_found s key fuel root rootNode [0] hwf hget habs
  simp only [collRemove, hget, hfind, if_true]

/-- Witness for claim C9: removing the absent key `"b"` from the one-item
collection `c4Store` returns success with the state unchanged. -/
theorem remove_absent_key_noop_witness :
    collRemove 4096 c4Store newFreelist 1 true 1 [98] =
      Except.ok (c4Store, newFreelist, 1) :=
  remove_absent_key_noop 4096 c4Store newFreelist 1 1 [98] (by decide) (by decide)

/-- Invariant of free-list traces: while fewer than 2^64 pages have been
returned, the high-water mark is bounded by the number of returns, the
released pages were all previously returned, and every returned page is
at least 1. -/
theorem freelistReachable_invariant {f : Freelist} {returned : List Nat}
    (h : FreelistReachable f returned) :
    returned.length < u64Mod →
      f.maxPage ≤ returned.length ∧
      (∀ p ∈ f.releasedPages, p ∈ returned) ∧
      (∀ p ∈ returned, 1 ≤ p) := by
  induction h with
  | init =>
    intro _
    exact ⟨by simp [newFreelist, metaPageNumber], by simp [newFreelist], by simp⟩
  | @alloc f returned hr ih =>
    intro hlen
    have hlen0 : returned.length < u64Mod := by
      simp only [List.length_cons] at hlen
      omega
    obtain ⟨hmax, hrel, hret⟩ := ih hlen0
    by_cases hpos : f.releasedPages.length > 0
    · simp only [Freelist.getNextPage, if_pos hpos]
      have hidx : f.releasedPages.length - 1 < f.releasedPages.length := by omega
      have hqmem : f.releasedPages.getD (f.releasedPages.length - 1) 0 ∈ f.releasedPages := by
        rw [List.getD_eq_getElem?_getD, List.getElem?_eq_getElem hidx]
        exact List.getElem_mem _
      refine ⟨?_, ?_, ?_⟩
      · simp only [List.length_cons]
        omega
      · intro p hp
        exact List.mem_cons_of_mem _ (hrel p (List.mem_of_mem_take hp))
      · intro p hp
        rcases List.mem_cons.mp hp with hp | hp
        · exact hret _ (hp ▸ hrel _ hqmem)
        · exact hret p hp
    · have hnil : f.releasedPages = [] := List.length_eq_zero.mp (by omega)
      have hmod : (f.maxPage + 1) % u64Mod = f.maxPage + 1 :=
        Nat.mod_eq_of_lt (by simp only [List.length_cons] at hlen; omega)
      have hstep : Freelist.getNextPage f =
          (f.maxPage + 1, { releasedPages := f.releasedPages, maxPage := f.maxPage + 1 }) := by
        simp only [Freelist.getNextPage, if_neg hpos, hmod]
      rw [hstep]
      refine ⟨?_, ?_, ?_⟩
      · simp only [List.length_cons]
        omega
      · intro p hp
        rw [hnil] at hp
        simp at hp
      · intro p hp
        rcases List.mem_cons.mp hp with hp | hp
        · omega
        · exact hret p hp
  | @release f returned p hr hp ih =>
    intro hlen
    obtain ⟨hmax, hrel, hret⟩ := ih hlen
    refine ⟨hmax, ?_, hret⟩
    intro q hq
    rcases List.mem_append.mp hq with hq | hq
    · exact hrel q hq
    · rw [List.mem_singleton.mp hq]
      exact hp

/-- Claim C10: on every trace that starts from a fresh free list and only
releases previously returned pages (and stays below 2^64 allocations, the
range of the `uint64` counter), every page number returned by
`getNextPage` is at least 1; the meta page number 0 is never allocated. -/
theorem freelist_never_allocates_meta_page {f : Freelist} {returned : List Nat}
    (h : FreelistReachable f returned) (hlen : returned.length < u64Mod) :
    (∀ p ∈ returned, 1 ≤ p) ∧ metaPageNumber ∉ returned := by
  obtain ⟨-, -, hret⟩ := freelistReachable_invariant h hlen
  refine ⟨hret, fun h0 => ?_⟩
  have h1 := hret _ h0
  simp [metaPageNumber] at h1

/-- Witness for claim C10 on the one-step trace that allocates the first
page from a fresh free list: the returned page is at least 1 and is not
the meta page. -/
theorem freelist_never_allocates_meta_page_witness :
    (∀ p ∈ [(Freelist.getNextPage newFreelist).1], 1 ≤ p) ∧
      metaPageNumber ∉ [(Freelist.getNextPage newFreelist).1] :=
  freelist_never_allocates_meta_page
    (FreelistReachable.alloc FreelistReachable.init) (by norm_num [u64Mod])
